import Mathlib

set_option maxRecDepth 4096

/-!
# SafeAPI core — shallow embedding and verification

This file embeds the cryptographic key-lifecycle and document-sharing core of
the SafeAPI TypeScript repository in Lean 4 and proves (or refutes) the frozen
claims about it.

Embedded source files:
* `packages/sdk/src/crypto/openpgp.ts` — AES-GCM JSON encryption with versioned
  wire framing, PGP key wrapping, multi-recipient fan-out
  (`encryptJsonAesGcm`, `decryptJsonAesGcm`, `encryptDocument`,
  `decryptDocument`, `wrapKeyWithPGP`, `unwrapKeyWithPGP`,
  `wrapKeyForMultipleRecipients`, `reWrapKey`, `generateDocumentKey`).
* `packages/sdk/src/core/Keys.ts` — identity-key backup/restore
  (`Keys.backup`, `Keys.restore`, `deriveKeyFromPassphrase`).
* `packages/sdk/src/core/Share.ts` — `ShareCore.grant` / `ShareCore.revoke`.
* `packages/cloud/functions/src/index.ts` — the broker endpoints
  (`/v1/broker/doc-key`, `/grant`, `/revoke`, `/rotate`) as Firestore-state
  transformers.
* `packages/sdk/src/core/Data.ts` — `DataCore.create` / `DataCore.query`
  (encryption-policy engine).

Platform collaborators (WebCrypto AES-GCM, the `openpgp` library, JSON/UTF-8
serialization, RNG) are not repository code; they are modelled as ideal,
executable functionalities with exactly the interface behaviour the code
relies on. Each such model carries a comment saying what it stands for.
Randomness (`crypto.getRandomValues`, key generation) is made explicit as a
threaded counter state `Rng`.
-/

/-! ## JSON values

Model of the JavaScript JSON data the SDK passes through
`JSON.stringify` / `JSON.parse`.  Numbers are restricted to integers; none of
the claims depend on float formatting. -/

inductive Json where
  | jnull : Json
  | jbool : Bool → Json
  | jnum : Int → Json
  | jstr : String → Json
  | jarr : List Json → Json
  | jobj : List (String × Json) → Json
deriving Repr, Inhabited

/-- First value bound to key `k` in a JS-object field list (property lookup;
`none` models JS `undefined`). -/
def jsonLookup (k : String) : List (String × Json) → Option Json
  | [] => none
  | (k', v) :: rest => if k' = k then some v else jsonLookup k rest

/-- JS property assignment `o[k] = v`: update in place when the key exists
(keeping its position), append otherwise — JS object insertion-order
semantics. -/
def setField (fs : List (String × Json)) (k : String) (v : Json) :
    List (String × Json) :=
  match fs with
  | [] => [(k, v)]
  | (k', v') :: rest =>
      if k' = k then (k', v) :: rest else (k', v') :: setField rest k v

/-! ## Byte-level serialization

Model of `new TextEncoder().encode(JSON.stringify(obj))` and of
`JSON.parse(new TextDecoder().decode(bytes))`.  The platform serializer is
not repository code; what the SDK relies on is that it is injective with a
total partial inverse, and that serialized JSON never begins with byte `1`
(the wire-format version byte) — true of UTF-8 JSON text, whose first byte is
always a printable character.  The model realizes this with an executable
tag-length-value codec over `List Nat` whose tags start at `2`, keeping `0`
and `1` free just as UTF-8 JSON text does. -/

/-- Serialized form of a string: length, then the code points. -/
def encodeString (s : String) : List Nat :=
  s.data.length :: s.data.map Char.toNat

/-- Read back a length-prefixed string, returning the remainder. -/
def readStr : List Nat → Option (String × List Nat)
  | [] => none
  | n :: rest =>
      if n ≤ rest.length then
        some (String.mk ((rest.take n).map Char.ofNat), rest.drop n)
      else none

mutual
/-- Serialized form of a JSON value (model of `JSON.stringify` + UTF-8). -/
def encodeJson : Json → List Nat
  | .jnull => [2]
  | .jbool b => [3, cond b 1 0]
  | .jnum n => [4, cond (n < 0) 1 0, n.natAbs]
  | .jstr s => 5 :: encodeString s
  | .jarr xs => 6 :: xs.length :: encodeJsonList xs
  | .jobj fs => 7 :: fs.length :: encodeJsonFields fs

/-- Serialized form of the elements of an array. -/
def encodeJsonList : List Json → List Nat
  | [] => []
  | x :: xs => encodeJson x ++ encodeJsonList xs

/-- Serialized form of the fields of an object. -/
def encodeJsonFields : List (String × Json) → List Nat
  | [] => []
  | (k, v) :: fs => encodeString k ++ encodeJson v ++ encodeJsonFields fs
end

mutual
/-- Fuel-driven JSON decoder; fuel strictly decreases on every recursive
call, and `bs.length` fuel always suffices for a serialized value. -/
def decodeJsonF : Nat → List Nat → Option (Json × List Nat)
  | 0, _ => none
  | _ + 1, [] => none
  | fuel + 1, t :: rest =>
      match t with
      | 2 => some (.jnull, rest)
      | 3 =>
          match rest with
          | b :: r => some (.jbool (b == 1), r)
          | [] => none
      | 4 =>
          match rest with
          | s :: m :: r =>
              some (.jnum (if s == 1 then -(m : Int) else (m : Int)), r)
          | _ => none
      | 5 => (readStr rest).map (fun p => (.jstr p.1, p.2))
      | 6 =>
          match rest with
          | n :: r =>
              (decodeListF fuel n r).map (fun p => (.jarr p.1, p.2))
          | [] => none
      | 7 =>
          match rest with
          | n :: r =>
              (decodeFieldsF fuel n r).map (fun p => (.jobj p.1, p.2))
          | [] => none
      | _ => none

/-- Decode `n` consecutive array elements. -/
def decodeListF : Nat → Nat → List Nat → Option (List Json × List Nat)
  | _, 0, r => some ([], r)
  | 0, _ + 1, _ => none
  | fuel + 1, n + 1, r =>
      match decodeJsonF fuel r with
      | none => none
      | some (j, r') =>
          match decodeListF fuel n r' with
          | none => none
          | some (xs, r'') => some (j :: xs, r'')

/-- Decode `n` consecutive object fields. -/
def decodeFieldsF : Nat → Nat → List Nat → Option (List (String × Json) × List Nat)
  | _, 0, r => some ([], r)
  | 0, _ + 1, _ => none
  | fuel + 1, n + 1, r =>
      match readStr r with
      | none => none
      | some (k, r₁) =>
          match decodeJsonF fuel r₁ with
          | none => none
          | some (v, r₂) =>
              match decodeFieldsF fuel n r₂ with
              | none => none
              | some (fs, r₃) => some ((k, v) :: fs, r₃)
end

/-- Model of `JSON.parse(new TextDecoder().decode(bs))`: succeeds only when
the whole byte list is one serialized JSON value. -/
def parseJsonBytes (bs : List Nat) : Option Json :=
  match decodeJsonF bs.length bs with
  | some (j, []) => some j
  | _ => none

/-! ## Platform cryptographic provider (modelled)

Modelled from the spec: "assume a trusted platform cryptographic provider
exposing public-key encrypt/decrypt/sign and authenticated symmetric
encrypt/decrypt" (§1).  `CKey` stands for an opaque WebCrypto `CryptoKey`:
either freshly generated (`crypto.subtle.generateKey`, numbered by the RNG
counter) or imported from the SHA-256 digest of a passphrase
(`Keys.deriveKeyFromPassphrase`); SHA-256 is modelled as injective.  The
AEAD (`crypto.subtle.encrypt`/`decrypt` with AES-GCM) is modelled as an
ideal authenticated container: decryption succeeds, returning the exact
plaintext, precisely when key and nonce match the ones used to encrypt, and
fails (the `OperationError` on tag mismatch) otherwise.  Confidentiality is
not modelled — no claim quantifies over an adversary — authenticity and
key binding are. -/

inductive CKey where
  | gen : Nat → CKey
  | derived : String → CKey
deriving Repr, DecidableEq

/-- Explicit replacement for `crypto.getRandomValues` / `generateKey`
randomness: a counter threaded through every operation that draws fresh
material. -/
structure Rng where
  ctr : Nat
deriving Repr, DecidableEq

/-- Draw one fresh value. -/
def Rng.next (r : Rng) : Nat × Rng := (r.ctr, ⟨r.ctr + 1⟩)

/-- A fresh 12-byte AES-GCM nonce, numbered by the RNG draw. -/
def ivOf (n : Nat) : List Nat := List.replicate 12 n

/-- Self-delimiting serialization of a key, used by the ideal AEAD container
to make the "same key?" check executable. -/
def encCKey : CKey → List Nat
  | .gen n => [0, n]
  | .derived s => 1 :: encodeString s

/-- Partial inverse of `encCKey`, returning the remainder. -/
def decCKey : List Nat → Option (CKey × List Nat)
  | 0 :: n :: rest => some (.gen n, rest)
  | 1 :: rest => (readStr rest).map (fun p => (.derived p.1, p.2))
  | _ => none

/-- Ideal AEAD encryption: an authenticated container binding key, nonce and
plaintext. -/
def subtleEncrypt (k : CKey) (iv : List Nat) (plain : List Nat) : List Nat :=
  encCKey k ++ iv ++ plain

/-- Ideal AEAD decryption: succeeds iff the container was built under the
same key and the same 12-byte nonce; `none` is the tag-mismatch
`OperationError`. -/
def subtleDecrypt (k : CKey) (iv : List Nat) (c : List Nat) : Option (List Nat) :=
  match decCKey c with
  | none => none
  | some (k', rest) =>
      if k' = k ∧ iv.length = 12 ∧ rest.take 12 = iv then
        some (rest.drop 12)
      else none

/-! ## `packages/sdk/src/crypto/openpgp.ts` — AES-GCM JSON helpers

The embedded functions keep their source names.  The `async`/`Promise`
structure is flattened; thrown errors become `Except.error`. -/

/-- The closed error kinds the crypto layer surfaces. -/
inductive CErr where
  | unsupportedVersion : CErr
  | authFailure : CErr
  | parseFailure : CErr
  | invalidRecipientKey : CErr
  | unwrapFailure : CErr
deriving Repr, DecidableEq

/-- Result record of `encryptJsonAesGcm`. -/
structure EncOut where
  encrypted : List Nat
  key : CKey
  iv : List Nat
deriving Repr, DecidableEq

/-- `encryptJsonAesGcm(obj, key?)`: serialize the payload, use the given key
or generate one, draw a fresh 12-byte nonce, AEAD-encrypt, and frame as
`[version(1), iv(12), ciphertext]`. -/
def encryptJsonAesGcm (obj : Json) (key : Option CKey) (r : Rng) :
    EncOut × Rng :=
  let data := encodeJson obj
  let (k, r₁) :=
    match key with
    | some k => (k, r)
    | none => let (n, r') := r.next; (CKey.gen n, r')
  let (m, r₂) := r₁.next
  let iv := ivOf m
  let cipher := subtleEncrypt k iv data
  ({ encrypted := 1 :: (iv ++ cipher), key := k, iv := iv }, r₂)

/-- `decryptJsonAesGcm(encrypted, key)`: reject any leading byte other than
`1` with the unsupported-version error, slice nonce and ciphertext, AEAD
decrypt, then `JSON.parse`. -/
def decryptJsonAesGcm (encrypted : List Nat) (key : CKey) : Except CErr Json :=
  match encrypted with
  | 1 :: rest =>
      let iv := rest.take 12
      let cipher := rest.drop 12
      match subtleDecrypt key iv cipher with
      | none => .error .authFailure
      | some plain =>
          match parseJsonBytes plain with
          | none => .error .parseFailure
          | some j => .ok j
  | _ => .error .unsupportedVersion

/-- `generateDocumentKey()`: a fresh AES-256-GCM key. -/
def generateDocumentKey (r : Rng) : CKey × Rng :=
  let (n, r') := r.next
  (CKey.gen n, r')

/-- `encryptDocument(data, key)`: serialize and AEAD-encrypt under a fresh
nonce; ciphertext and nonce returned separately (no version framing). -/
def encryptDocument (data : Json) (key : CKey) (r : Rng) :
    (List Nat × List Nat) × Rng :=
  let (m, r') := r.next
  let iv := ivOf m
  ((subtleEncrypt key iv (encodeJson data), iv), r')

/-- `decryptDocument(encrypted, iv, key)`: AEAD-decrypt and `JSON.parse`. -/
def decryptDocument (encrypted iv : List Nat) (key : CKey) : Except CErr Json :=
  match subtleDecrypt key iv encrypted with
  | none => .error .authFailure
  | some plain =>
      match parseJsonBytes plain with
      | none => .error .parseFailure
      | some j => .ok j

/-! ## PGP key wrapping (openpgp library modelled)

Modelled from the spec: `openpgp.readKey`/`encrypt`/`decrypt` are library
calls, not repository code.  An armored public key is valid iff it parses
(`openpgp.readKey`); the model's armored keypairs are the strings
`pubArmor p` / `p` for a private armor `p`, and a wrapped key is an ideal
public-key container holding the wrapped `CKey` and the recipient public
key, openable exactly with the matching private key. -/

/-- The armored public key belonging to a private armor (the two halves that
`openpgp.generateKey` returns together). -/
def pubArmor (privArmored : String) : String :=
  "-----BEGIN PGP PUBLIC KEY-----" ++ privArmored

/-- `openpgp.readKey` succeeds iff the armor is well-formed (the armor
header is present; checked on the character list, which reduces). -/
def isValidArmoredPub (s : String) : Bool :=
  List.isPrefixOf "-----BEGIN PGP PUBLIC KEY-----".data s.data

/-- An ideal wrapped key: `openpgp.encrypt` output, binding the AES key and
the recipient public key. -/
structure WrappedKey where
  key : CKey
  pub : String
deriving Repr, DecidableEq

/-- `wrapKeyWithPGP(aesKey, recipientPublicKeyArmored)`: fails when the
recipient key does not parse. -/
def wrapKeyWithPGP (aesKey : CKey) (recipientPublicKeyArmored : String) :
    Except CErr WrappedKey :=
  if isValidArmoredPub recipientPublicKeyArmored then
    .ok { key := aesKey, pub := recipientPublicKeyArmored }
  else .error .invalidRecipientKey

/-- `unwrapKeyWithPGP(wrappedArmored, privateKeyArmored)`: opens the
container iff the private key matches the public key it was wrapped for. -/
def unwrapKeyWithPGP (wrapped : WrappedKey) (privateKeyArmored : String) :
    Except CErr CKey :=
  if wrapped.pub = pubArmor privateKeyArmored then .ok wrapped.key
  else .error .unwrapFailure

/-- One per-recipient entry of the fan-out result. -/
structure RecipientWrap where
  userId : String
  wrappedKey : WrappedKey
deriving Repr, DecidableEq

/-- A recipient as passed to `wrapKeyForMultipleRecipients`. -/
structure Recipient where
  userId : String
  publicKeyArmored : String
deriving Repr, DecidableEq

/-- `wrapKeyForMultipleRecipients(aesKey, recipients)`: a `Promise.all` over
per-recipient `wrapKeyWithPGP` calls — the whole call rejects as soon as any
single wrap fails, with no partial result. -/
def wrapKeyForMultipleRecipients (aesKey : CKey) :
    List Recipient → Except CErr (List RecipientWrap)
  | [] => .ok []
  | rcp :: rest =>
      match wrapKeyWithPGP aesKey rcp.publicKeyArmored with
      | .error e => .error e
      | .ok w =>
          match wrapKeyForMultipleRecipients aesKey rest with
          | .error e => .error e
          | .ok ws => .ok ({ userId := rcp.userId, wrappedKey := w } :: ws)

/-- `reWrapKey(originalWrappedKey, originalPrivateKey, newRecipients)`:
unwrap, then fan out for the new recipients. -/
def reWrapKey (originalWrappedKey : WrappedKey) (originalPrivateKey : String)
    (newRecipients : List Recipient) : Except CErr (List RecipientWrap) :=
  match unwrapKeyWithPGP originalWrappedKey originalPrivateKey with
  | .error e => .error e
  | .ok aesKey => wrapKeyForMultipleRecipients aesKey newRecipients

/-! ## `packages/sdk/src/core/Keys.ts` — KeyManager

The `Keys` class caches one identity keypair; `backup`/`restore` move it
through a passphrase escrow.  The in-memory cache is the explicit state
`KeysState`.  JS `undefined` on optional record fields is `Option`; a JS
falsy test on a string (`!passphrase`) is `none` or the empty string.
`Date.now()` is the explicit `now` argument. -/

structure KeyPair where
  publicKeyArmored : String
  privateKeyArmored : String
deriving Repr, DecidableEq

structure KeysState where
  cached : Option KeyPair
deriving Repr, DecidableEq

/-- The union of the `backupData` record shapes the three methods produce
(absent JS properties are `none`). -/
structure BackupData where
  method : String
  encryptedPrivateKey : Option (List Nat)
  privateKey : Option String
  publicKey : Option String
  metadata : Option Json
  createdAt : Nat
deriving Repr

structure KeyBackupOptions where
  method : String
  passphrase : Option String
  metadata : Option Json
deriving Repr

structure KeyRecoveryOptions where
  method : String
  passphrase : Option String
  backupData : Option BackupData
deriving Repr

structure BackupResult where
  backupData : Option BackupData
  success : Bool
deriving Repr

structure RestoreResult where
  success : Bool
  keyPair : Option KeyPair
deriving Repr, DecidableEq

/-- `deriveKeyFromPassphrase`: SHA-256 of the passphrase imported as an
AES-GCM key.  The hash is modelled as injective (collisions are outside
every claim's scope). -/
def deriveKeyFromPassphrase (passphrase : String) : CKey :=
  .derived passphrase

/-- JS falsy test on an optional string (`undefined` or `''`). -/
def strFalsy : Option String → Bool
  | none => true
  | some s => s = ""

/-- Property read `j[k]` on a decrypted JSON value (non-objects have no
properties). -/
def jsonGet (j : Json) (k : String) : Option Json :=
  match j with
  | .jobj fs => jsonLookup k fs
  | _ => none

/-- Coerce a read JSON property to the string the code stores into
`privateKeyArmored`; a JS `undefined`/non-string read is collapsed to `""`
(no claim depends on that value). -/
def jsStrOf : Option Json → String
  | some (.jstr s) => s
  | _ => ""

/-- `Keys.backup(options)`: throws (uncaught) when no keys are cached;
otherwise builds the per-method `backupData` inside a `try` whose `catch`
returns `{ backupData: null, success: false }`. -/
def Keys.backup (st : KeysState) (options : KeyBackupOptions) (r : Rng)
    (now : Nat) : Except String (BackupResult × Rng) :=
  match st.cached with
  | none => .error "No keys to backup"
  | some cached =>
      match options.method with
      | "phrase" =>
          if strFalsy options.passphrase then
            -- `throw new Error('Passphrase required…')`, caught below
            .ok ({ backupData := none, success := false }, r)
          else
            let pass := options.passphrase.getD ""
            let payload := Json.jobj
              ([("privateKey", .jstr cached.privateKeyArmored)] ++
                match options.metadata with
                | some m => [("metadata", m)]
                | none => [])
            let (out, r') :=
              encryptJsonAesGcm payload (some (deriveKeyFromPassphrase pass)) r
            .ok ({ backupData := some
                    { method := "phrase"
                      encryptedPrivateKey := some out.encrypted
                      privateKey := none
                      publicKey := some cached.publicKeyArmored
                      metadata := none
                      createdAt := now }
                   success := true }, r')
      | "file" =>
          .ok ({ backupData := some
                  { method := "file"
                    encryptedPrivateKey := none
                    privateKey := some cached.privateKeyArmored
                    publicKey := some cached.publicKeyArmored
                    metadata := options.metadata
                    createdAt := now }
                 success := true }, r)
      | "webauthn" =>
          -- placeholder branch: warns, then succeeds WITHOUT the private key
          .ok ({ backupData := some
                  { method := "webauthn"
                    encryptedPrivateKey := none
                    privateKey := none
                    publicKey := some cached.publicKeyArmored
                    metadata := options.metadata
                    createdAt := now }
                 success := true }, r)
      | _ =>
          -- `throw new Error('Unsupported backup method')`, caught below
          .ok ({ backupData := none, success := false }, r)

/-- `Keys.restore(options)`: every failure path is caught and returns
`{ success: false }` leaving the cache untouched; only a fully successful
branch assigns `this.cached = keyPair`. -/
def Keys.restore (st : KeysState) (options : KeyRecoveryOptions) :
    RestoreResult × KeysState :=
  match options.method with
  | "phrase" =>
      if strFalsy options.passphrase then
        ({ success := false, keyPair := none }, st)
      else
        match options.backupData with
        | none => ({ success := false, keyPair := none }, st)
        | some bd =>
            match bd.encryptedPrivateKey with
            | none => ({ success := false, keyPair := none }, st)
            | some encrypted =>
                let pass := options.passphrase.getD ""
                match decryptJsonAesGcm encrypted
                    (deriveKeyFromPassphrase pass) with
                | .error _ => ({ success := false, keyPair := none }, st)
                | .ok decrypted =>
                    let keyPair : KeyPair :=
                      { privateKeyArmored := jsStrOf (jsonGet decrypted "privateKey")
                        publicKeyArmored := (bd.publicKey).getD "" }
                    ({ success := true, keyPair := some keyPair },
                      { cached := some keyPair })
  | "file" =>
      match options.backupData with
      | none => ({ success := false, keyPair := none }, st)
      | some bd =>
          if strFalsy bd.privateKey ∨ strFalsy bd.publicKey then
            ({ success := false, keyPair := none }, st)
          else
            let keyPair : KeyPair :=
              { privateKeyArmored := (bd.privateKey).getD ""
                publicKeyArmored := (bd.publicKey).getD "" }
            ({ success := true, keyPair := some keyPair },
              { cached := some keyPair })
  | _ =>
      -- 'webauthn' throws "not yet implemented"; unknown methods throw too;
      -- both are caught into `{ success: false }`
      ({ success := false, keyPair := none }, st)

/-! ## `packages/cloud/functions/src/index.ts` — `handleBroker`

The four broker endpoints mutate the Firestore `docKeys` collection; each is
a pure transformer of that collection's state.  Firestore `set(…,{merge:true})`
with a dotted `wrapped.<uid>` path updates one entry of the `wrapped` map, and
`FieldValue.delete()` removes it; `serverTimestamp()` is the explicit `now`
argument. -/

/-- Assoc-map read (first binding wins). -/
def alistGet {β : Type} (k : String) : List (String × β) → Option β
  | [] => none
  | (k', v) :: rest => if k' = k then some v else alistGet k rest

/-- Assoc-map upsert keeping insertion order. -/
def alistSet {β : Type} (m : List (String × β)) (k : String) (v : β) :
    List (String × β) :=
  match m with
  | [] => [(k, v)]
  | (k', v') :: rest =>
      if k' = k then (k', v) :: rest else (k', v') :: alistSet rest k v

/-- Assoc-map removal (the `FieldValue.delete()` shape). -/
def alistDel {β : Type} (m : List (String × β)) (k : String) :
    List (String × β) :=
  m.filter (fun kv => !(kv.1 == k))

/-- One document of the Firestore `docKeys` collection. -/
structure BrokerDoc where
  alg : Option String
  createdAt : Option Nat
  wrapped : List (String × String)
  rotatedAt : Option Nat
deriving Repr, DecidableEq

/-- The `docKeys` collection, keyed by kref. -/
abbrev BrokerState : Type := List (String × BrokerDoc)

/-- A merge-set against a possibly missing document starts from the empty
document, as Firestore does. -/
def emptyBrokerDoc : BrokerDoc :=
  { alg := none, createdAt := none, wrapped := [], rotatedAt := none }

/-- The wrap map a kref currently holds (empty when the document is
absent). -/
def brokerWrapped (st : BrokerState) (kref : String) : List (String × String) :=
  ((alistGet kref st).getD emptyBrokerDoc).wrapped

/-- `POST /v1/broker/doc-key`: derive the kref and merge-set
`{alg, createdAt}`. -/
def brokerDocKey (st : BrokerState) (collection docId : String) (now : Nat) :
    String × BrokerState :=
  let kref := "k_" ++ collection ++ "_" ++ docId
  let doc := (alistGet kref st).getD emptyBrokerDoc
  (kref, alistSet st kref
    { doc with alg := some "aes-gcm-256", createdAt := some now })

/-- `POST /v1/broker/grant`: merge-set `wrapped.<recipient>`.  The endpoint
IGNORES the client-supplied wrapped key and stores the literal
`'WRAPPED_KEY_PLACEHOLDER'`. -/
def brokerGrant (st : BrokerState) (kref recipientUserId : String)
    (_wrappedKey : WrappedKey) : BrokerState :=
  let doc := (alistGet kref st).getD emptyBrokerDoc
  alistSet st kref
    { doc with wrapped :=
        alistSet doc.wrapped recipientUserId "WRAPPED_KEY_PLACEHOLDER" }

/-- `POST /v1/broker/revoke`: delete `wrapped.<userId>`. -/
def brokerRevoke (st : BrokerState) (kref userId : String) : BrokerState :=
  let doc := (alistGet kref st).getD emptyBrokerDoc
  alistSet st kref { doc with wrapped := alistDel doc.wrapped userId }

/-- `POST /v1/broker/rotate`: merge-set `{rotatedAt}` — NOTHING ELSE: no new
content key, no re-encryption, no re-wrap. -/
def brokerRotate (st : BrokerState) (kref : String) (now : Nat) : BrokerState :=
  let doc := (alistGet kref st).getD emptyBrokerDoc
  alistSet st kref { doc with rotatedAt := some now }

/-! ## `packages/sdk/src/core/Share.ts` — ShareCore

`grant` and `revoke` drive the broker endpoints; the `CloudClient` wire hop
is elided (each `cloud.post` becomes the endpoint's state transformer). -/

/-- Result of `ShareCore.grant`. -/
structure GrantOut where
  documentKey : CKey
  wrappedKeys : List RecipientWrap
deriving Repr, DecidableEq

/-- `ShareCore.grant`: use the given document key or GENERATE A FRESH ONE
(the document's current content key is never looked up), fan out wraps, then
register the kref and store each wrap at the broker. -/
def ShareCore.grant (broker : BrokerState) (collection id : String)
    (recipients : List Recipient) (documentKey : Option CKey) (r : Rng)
    (now : Nat) : Except CErr (GrantOut × BrokerState × Rng) :=
  let (dk, r₁) :=
    match documentKey with
    | some k => (k, r)
    | none => generateDocumentKey r
  match wrapKeyForMultipleRecipients dk recipients with
  | .error e => .error e
  | .ok wrappedKeys =>
      let (kref, st₁) := brokerDocKey broker collection id now
      let st₂ := wrappedKeys.foldl
        (fun s wk => brokerGrant s kref wk.userId wk.wrappedKey) st₁
      .ok ({ documentKey := dk, wrappedKeys := wrappedKeys }, st₂, r₁)

/-- `ShareCore.revoke`: resolve the kref, post `/revoke`, then post
`/rotate`.  Its type alone shows it never receives — and so can never
re-encrypt — the stored payload. -/
def ShareCore.revoke (broker : BrokerState) (collection id userId : String)
    (now : Nat) : BrokerState :=
  let (kref, st₁) := brokerDocKey broker collection id now
  let st₂ := brokerRevoke st₁ kref userId
  brokerRotate st₂ kref now

/-! ## `packages/sdk/src/core/Data.ts` — DataCore (policy engine)

`create` produces the stored bytes handed to the storage adapter; `query`
decodes raw stored blobs.  `Data.ts` calls the options-taking overload of
`encryptJsonAesGcm` (second argument `{contentType, metadata}`, exercised by
the repository's crypto tests); the options only decorate the returned
record — key handling and the encrypted framing are those of
`encryptJsonAesGcm` with no key supplied, which is how it is embedded
here. -/

inductive EncryptionMode where
  | modeNone : EncryptionMode
  | modeField : EncryptionMode
  | modeDocument : EncryptionMode
deriving Repr, DecidableEq

/-- `Policy<T>`: `fields` is optional (`policy.fields || []`). -/
structure DataPolicy where
  encryption : EncryptionMode
  fields : Option (List String)
deriving Repr, DecidableEq

/-- The fields of a JS object (`{...doc}` spread; field-mode documents are
objects). -/
def jsObjFields : Json → List (String × Json)
  | .jobj fs => fs
  | _ => []

/-- The loop `for f of fields: protectedObj[f] = doc[f]` — property
assignment in field order; a `doc[f]` that is `undefined` disappears at
`JSON.stringify` time, so it is dropped here. -/
def assignFields (docFields : List (String × Json)) (fields : List String) :
    List (String × Json) :=
  fields.foldl
    (fun acc f =>
      match jsonLookup f docFields with
      | some v => setField acc f v
      | none => acc) []

/-- The loop `for f of fields: delete partial[f]`. -/
def removeFields (docFields : List (String × Json)) :
    List String → List (String × Json)
  | [] => docFields
  | f :: rest =>
      removeFields (docFields.filter (fun kv => !(kv.1 == f))) rest

/-- What `DataCore.create` hands to the storage adapter and registers in the
session key store. -/
structure CreateOut where
  stored : List Nat
  mode : EncryptionMode
  key : Option CKey
deriving Repr, DecidableEq

/-- `DataCore.create`: apply the encryption policy and build the stored
form. -/
def DataCore.create (doc : Json) (policy : DataPolicy) (r : Rng) :
    CreateOut × Rng :=
  match policy.encryption with
  | .modeNone =>
      ({ stored := encodeJson (.jobj [("__mode", .jstr "none"), ("doc", doc)])
         mode := .modeNone, key := none }, r)
  | .modeField =>
      let fields := policy.fields.getD []
      let docFields := jsObjFields doc
      let protectedObj := Json.jobj (assignFields docFields fields)
      let part₀ := removeFields docFields fields
      let (out, r') := encryptJsonAesGcm protectedObj none r
      let part₁ := setField part₀ "__mode" (.jstr "field")
      let part₂ := setField part₁ "__iv" .jnull
      let part₃ := setField part₂ "__blob"
        (.jarr (out.encrypted.map (fun b => .jnum (Int.ofNat b))))
      ({ stored := encodeJson (.jobj part₃), mode := .modeField
         key := some out.key }, r')
  | .modeDocument =>
      let (out, r') := encryptJsonAesGcm doc none r
      ({ stored := out.encrypted, mode := .modeDocument
         key := some out.key }, r')

/-- `DataCore.query`: try to decode each stored blob as plaintext JSON; keep
`parsed.doc` only when `parsed.__mode === 'none'`; anything else — including
every encrypted blob — is silently skipped, never an error.  (An entry is
the JS read `parsed.doc`, `none` standing for `undefined`.) -/
def queryDecode (b : List Nat) : Option (Option Json) :=
  match parseJsonBytes b with
  | some (.jobj fs) =>
      match jsonLookup "__mode" fs with
      | some (.jstr m) =>
          if m = "none" then some (jsonLookup "doc" fs) else none
      | _ => none
  | _ => none

def DataCore.query (blobs : List (List Nat)) : List (Option Json) :=
  blobs.filterMap queryDecode

/-- Scenario plumbing: the stored blobs of a batch of `DataCore.create`
calls, threading the RNG left to right. -/
def createStoredList (inputs : List (Json × DataPolicy)) (r : Rng) :
    List (List Nat) :=
  match inputs with
  | [] => []
  | (d, p) :: rest =>
      let (o, r') := DataCore.create d p r
      o.stored :: createStoredList rest r'

/-! ## Supporting lemmas: serialization round-trip -/

theorem readStr_encodeString (s : String) (rest : List Nat) :
    readStr (encodeString s ++ rest) = some (s, rest) := by
  simp only [encodeString, readStr, List.cons_append]
  have hlen : s.data.length ≤ (s.data.map Char.toNat ++ rest).length := by
    simp [List.length_append, List.length_map]
  rw [if_pos hlen]
  have htake : (s.data.map Char.toNat ++ rest).take s.data.length
      = s.data.map Char.toNat := by
    have h := List.take_left (s.data.map Char.toNat) rest
    rwa [List.length_map] at h
  have hdrop : (s.data.map Char.toNat ++ rest).drop s.data.length = rest := by
    have h := List.drop_left (s.data.map Char.toNat) rest
    rwa [List.length_map] at h
  rw [htake, hdrop, List.map_map]
  have hmap : s.data.map (Char.ofNat ∘ Char.toNat) = s.data := by
    simp [Function.comp_def, Char.ofNat_toNat]
  rw [hmap]

/-- The joint decode/encode round-trip, by strong induction on fuel. -/
theorem decode_encode_aux (f : Nat) :
    (∀ j rest, (encodeJson j).length ≤ f →
        decodeJsonF f (encodeJson j ++ rest) = some (j, rest)) ∧
    (∀ l rest, (encodeJsonList l).length + 1 ≤ f →
        decodeListF f l.length (encodeJsonList l ++ rest) = some (l, rest)) ∧
    (∀ fs rest, (encodeJsonFields fs).length + 1 ≤ f →
        decodeFieldsF f fs.length (encodeJsonFields fs ++ rest) = some (fs, rest)) := by
  induction f using Nat.strong_induction_on with
  | _ f ih =>
    refine ⟨?_, ?_, ?_⟩
    · intro j rest hf
      match j with
      | .jnull =>
          match f, hf with
          | g + 1, _ => simp [encodeJson, decodeJsonF]
      | .jbool b =>
          match f, hf with
          | g + 1, _ => cases b <;> simp [encodeJson, decodeJsonF]
      | .jnum n =>
          match f, hf with
          | g + 1, _ =>
              rcases lt_or_le n 0 with h | h
              · simp [encodeJson, decodeJsonF, h, Int.natCast_natAbs,
                  abs_of_neg h]
              · simp [encodeJson, decodeJsonF, not_lt.mpr h,
                  Int.natCast_natAbs, abs_of_nonneg h]
      | .jstr s =>
          match f, hf with
          | g + 1, _ =>
              simp [encodeJson, decodeJsonF, List.append_assoc,
                readStr_encodeString]
      | .jarr xs =>
          match f, hf with
          | g + 1, hf =>
              have hlen : (encodeJsonList xs).length + 1 ≤ g := by
                simp [encodeJson] at hf; omega
              have hg : g < g + 1 := Nat.lt_succ_self g
              have h := (ih g hg).2.1 xs rest hlen
              simp [encodeJson, decodeJsonF, List.append_assoc, h]
      | .jobj fs =>
          match f, hf with
          | g + 1, hf =>
              have hlen : (encodeJsonFields fs).length + 1 ≤ g := by
                simp [encodeJson] at hf; omega
              have hg : g < g + 1 := Nat.lt_succ_self g
              have h := (ih g hg).2.2 fs rest hlen
              simp [encodeJson, decodeJsonF, List.append_assoc, h]
    · intro l rest hf
      match l with
      | [] => cases f with
          | zero => simp at hf
          | succ g => simp [encodeJsonList, decodeListF]
      | x :: xs =>
          match f, hf with
          | g + 1, hf =>
              have hxpos : 1 ≤ (encodeJson x).length := by
                match x with
                | .jnull | .jbool _ | .jnum _ | .jstr _ | .jarr _ | .jobj _ =>
                    simp [encodeJson]
              have hx : (encodeJson x).length ≤ g := by
                simp [encodeJsonList, List.length_append] at hf
                omega
              have hxs : (encodeJsonList xs).length + 1 ≤ g := by
                simp [encodeJsonList, List.length_append] at hf
                omega
              have hg : g < g + 1 := Nat.lt_succ_self g
              have h1 := (ih g hg).1 x (encodeJsonList xs ++ rest) hx
              have h2 := (ih g hg).2.1 xs rest hxs
              simp only [encodeJsonList, List.append_assoc, List.length_cons,
                decodeListF, h1, h2]
    · intro fs rest hf
      match fs with
      | [] => cases f with
          | zero => simp at hf
          | succ g => simp [encodeJsonFields, decodeFieldsF]
      | (k, v) :: fs' =>
          match f, hf with
          | g + 1, hf =>
              have hkpos : 1 ≤ (encodeString k).length := by
                simp [encodeString]
              have hvpos : 1 ≤ (encodeJson v).length := by
                match v with
                | .jnull | .jbool _ | .jnum _ | .jstr _ | .jarr _ | .jobj _ =>
                    simp [encodeJson]
              have hv : (encodeJson v).length ≤ g := by
                simp [encodeJsonFields, List.length_append] at hf
                omega
              have hfs : (encodeJsonFields fs').length + 1 ≤ g := by
                simp [encodeJsonFields, List.length_append] at hf
                omega
              have hg : g < g + 1 := Nat.lt_succ_self g
              have h1 := (ih g hg).1 v (encodeJsonFields fs' ++ rest) hv
              have h2 := (ih g hg).2.2 fs' rest hfs
              simp only [encodeJsonFields, List.append_assoc, List.length_cons,
                decodeFieldsF, readStr_encodeString, h1, h2]

/-- Serialize-then-parse is the identity (the property of the platform
JSON/UTF-8 layer the SDK relies on). -/
theorem parseJsonBytes_encodeJson (j : Json) :
    parseJsonBytes (encodeJson j) = some j := by
  have h := (decode_encode_aux (encodeJson j).length).1 j [] (Nat.le_refl _)
  simp only [List.append_nil] at h
  simp [parseJsonBytes, h]

/-- Bytes beginning with the wire version byte `1` are never valid
serialized JSON (the model's counterpart of "UTF-8 JSON text never starts
with byte 1"). -/
theorem parseJsonBytes_version_byte (rest : List Nat) :
    parseJsonBytes (1 :: rest) = none := by
  simp [parseJsonBytes, decodeJsonF]

/-! ## Supporting lemmas: JS-object field operations -/

theorem jsonLookup_setField_self (fs : List (String × Json)) (k : String)
    (v : Json) : jsonLookup k (setField fs k v) = some v := by
  induction fs with
  | nil => simp [setField, jsonLookup]
  | cons kv rest ih =>
      by_cases h : kv.1 = k
      · simp [setField, jsonLookup, h]
      · simp [setField, jsonLookup, h, ih]

theorem jsonLookup_setField_ne (fs : List (String × Json)) (k k' : String)
    (v : Json) (h : k' ≠ k) :
    jsonLookup k (setField fs k' v) = jsonLookup k fs := by
  induction fs with
  | nil => simp [setField, jsonLookup, h]
  | cons kv rest ih =>
      by_cases hk : kv.1 = k'
      · simp [setField, jsonLookup, hk, h]
      · simp only [setField, hk, if_false, jsonLookup]
        by_cases hk2 : kv.1 = k
        · simp [hk2]
        · simp [hk2, ih]

theorem filter_key_cons (kv : String × Json) (rest : List (String × Json))
    (f : String) :
    (kv :: rest).filter (fun x => !(x.1 == f)) =
      if kv.1 = f then rest.filter (fun x => !(x.1 == f))
      else kv :: rest.filter (fun x => !(x.1 == f)) := by
  by_cases h : kv.1 = f <;> simp [List.filter_cons, h]

theorem jsonLookup_filter_self (fs : List (String × Json)) (f : String) :
    jsonLookup f (fs.filter (fun kv => !(kv.1 == f))) = none := by
  induction fs with
  | nil => rfl
  | cons kv rest ih =>
      obtain ⟨k', v⟩ := kv
      rw [filter_key_cons]
      by_cases h : (k', v).1 = f
      · rw [if_pos h]; exact ih
      · rw [if_neg h]
        simp only [jsonLookup]
        rw [if_neg h]
        exact ih

theorem jsonLookup_filter_ne (fs : List (String × Json)) (k f : String)
    (h : k ≠ f) :
    jsonLookup k (fs.filter (fun kv => !(kv.1 == f))) = jsonLookup k fs := by
  induction fs with
  | nil => rfl
  | cons kv rest ih =>
      obtain ⟨k', v⟩ := kv
      rw [filter_key_cons]
      by_cases hf : (k', v).1 = f
      · rw [if_pos hf, ih]
        have hne : k' ≠ k := by
          simp only at hf
          rw [hf]
          exact fun hh => h hh.symm
        simp [jsonLookup, hne]
      · rw [if_neg hf]
        by_cases hk : k' = k
        · simp [jsonLookup, hk]
        · simp [jsonLookup, hk, ih]

theorem jsonLookup_removeFields_mem (docFields : List (String × Json))
    (fields : List String) (f : String) (h : f ∈ fields) :
    jsonLookup f (removeFields docFields fields) = none := by
  have hstay : ∀ (gs : List String) (ds : List (String × Json)),
      jsonLookup f ds = none →
      jsonLookup f (removeFields ds gs) = none := by
    intro gs
    induction gs with
    | nil => intro ds hd; exact hd
    | cons g' rest' ih' =>
        intro ds hd
        rw [removeFields]
        apply ih'
        by_cases hfg : f = g'
        · subst hfg; exact jsonLookup_filter_self ds f
        · rw [jsonLookup_filter_ne ds f g' hfg]; exact hd
  induction fields generalizing docFields with
  | nil => cases h
  | cons g rest ih =>
      rw [removeFields]
      rcases List.mem_cons.mp h with hf | hf
      · subst hf
        exact hstay rest _ (jsonLookup_filter_self docFields f)
      · exact ih _ hf

theorem jsonLookup_removeFields_not_mem (docFields : List (String × Json))
    (fields : List String) (k : String) (h : k ∉ fields) :
    jsonLookup k (removeFields docFields fields) = jsonLookup k docFields := by
  induction fields generalizing docFields with
  | nil => rfl
  | cons g rest ih =>
      have hkg : k ≠ g := fun hh => h (hh ▸ List.mem_cons_self _ _)
      have hk : k ∉ rest := fun hh => h (List.mem_cons_of_mem _ hh)
      rw [removeFields, ih _ hk, jsonLookup_filter_ne docFields k g hkg]

/-- What the field-extraction loop builds: exactly the present document
values of the listed fields. -/
theorem jsonLookup_assignFields (docFields : List (String × Json))
    (fields : List String) (f : String) :
    jsonLookup f (assignFields docFields fields) =
      if f ∈ fields then jsonLookup f docFields else none := by
  have go : ∀ (gs : List String) (acc : List (String × Json)),
      jsonLookup f (gs.foldl
        (fun acc g =>
          match jsonLookup g docFields with
          | some v => setField acc g v
          | none => acc) acc) =
      if f ∈ gs ∧ (jsonLookup f docFields).isSome then jsonLookup f docFields
      else jsonLookup f acc := by
    intro gs
    induction gs with
    | nil => intro acc; simp
    | cons g rest ih =>
        intro acc
        simp only [List.foldl_cons, ih]
        by_cases hmemr : f ∈ rest ∧ (jsonLookup f docFields).isSome
        · simp only [hmemr, if_pos]
          have : f ∈ g :: rest ∧ (jsonLookup f docFields).isSome :=
            ⟨List.mem_cons_of_mem _ hmemr.1, hmemr.2⟩
          simp [this]
        · rw [if_neg hmemr]
          by_cases hfg : f = g
          · subst hfg
            cases hdoc : jsonLookup f docFields with
            | some v =>
                simp only [hdoc, jsonLookup_setField_self]
                have : f ∈ f :: rest ∧ (jsonLookup f docFields).isSome := by
                  simp [hdoc]
                simp [this, hdoc]
            | none =>
                simp only [hdoc]
                have : ¬(f ∈ f :: rest ∧ (jsonLookup f docFields).isSome) := by
                  simp [hdoc]
                simp [this]
          · have hmem : (f ∈ g :: rest ∧ (jsonLookup f docFields).isSome) ↔
                (f ∈ rest ∧ (jsonLookup f docFields).isSome) := by
              constructor
              · rintro ⟨hm, hs⟩
                rcases List.mem_cons.mp hm with hh | hh
                · exact absurd hh hfg
                · exact ⟨hh, hs⟩
              · rintro ⟨hm, hs⟩
                exact ⟨List.mem_cons_of_mem _ hm, hs⟩
            rw [if_neg (fun hh => hmemr (hmem.mp hh))]
            cases hdoc : jsonLookup g docFields with
            | some v => simp [jsonLookup_setField_ne acc f g v
                (fun hh => hfg hh.symm)]
            | none => rfl
  rw [assignFields, go]
  by_cases hmem : f ∈ fields
  · cases hdoc : jsonLookup f docFields with
    | some v => simp [hmem, hdoc]
    | none => simp [hmem, hdoc, jsonLookup]
  · simp [hmem, jsonLookup]

/-! ## Supporting lemmas: broker assoc maps -/

theorem alistGet_alistSet_self {β : Type} (m : List (String × β)) (k : String)
    (v : β) : alistGet k (alistSet m k v) = some v := by
  induction m with
  | nil => simp [alistSet, alistGet]
  | cons kv rest ih =>
      by_cases h : kv.1 = k
      · simp [alistSet, alistGet, h]
      · simp [alistSet, alistGet, h, ih]

theorem alistGet_alistSet_ne {β : Type} (m : List (String × β)) (k k' : String)
    (v : β) (h : k' ≠ k) :
    alistGet k (alistSet m k' v) = alistGet k m := by
  induction m with
  | nil => simp [alistSet, alistGet, h]
  | cons kv rest ih =>
      by_cases hk : kv.1 = k'
      · simp [alistSet, alistGet, hk, h]
      · simp only [alistSet, hk, if_false, alistGet]
        by_cases hk2 : kv.1 = k
        · simp [hk2]
        · simp [hk2, ih]

theorem alistSet_eq_of_get {β : Type} (m : List (String × β)) (k : String)
    (v : β) (h : alistGet k m = some v) : alistSet m k v = m := by
  induction m with
  | nil => simp [alistGet] at h
  | cons kv rest ih =>
      by_cases hk : kv.1 = k
      · simp only [alistGet, hk, if_pos] at h
        obtain ⟨k1, v1⟩ := kv
        simp only at hk
        simp only [Option.some.injEq] at h
        simp [alistSet, hk, h]
      · simp only [alistGet, hk, if_neg, if_false] at h
        simp [alistSet, hk, ih h]

/-! ## Supporting lemmas: ideal AEAD and framed helpers -/

theorem decCKey_encCKey (k : CKey) (rest : List Nat) :
    decCKey (encCKey k ++ rest) = some (k, rest) := by
  cases k with
  | gen n => simp [encCKey, decCKey]
  | derived s => simp [encCKey, decCKey, readStr_encodeString]

/-- The ideal AEAD round-trip. -/
theorem subtleDecrypt_subtleEncrypt (k : CKey) (iv plain : List Nat)
    (hiv : iv.length = 12) :
    subtleDecrypt k iv (subtleEncrypt k iv plain) = some plain := by
  simp only [subtleEncrypt, subtleDecrypt, List.append_assoc,
    decCKey_encCKey]
  have htake : (iv ++ plain).take 12 = iv := by
    have h := List.take_left iv plain
    rwa [hiv] at h
  have hdrop : (iv ++ plain).drop 12 = plain := by
    have h := List.drop_left iv plain
    rwa [hiv] at h
  simp [htake, hdrop, hiv]

/-- Decryption under a different key always fails in the ideal model (the
overwhelming-probability AES-GCM tag mismatch, idealized). -/
theorem subtleDecrypt_wrong_key (k k' : CKey) (iv iv' plain : List Nat)
    (hk : k' ≠ k) :
    subtleDecrypt k' iv' (subtleEncrypt k iv plain) = none := by
  simp only [subtleEncrypt, subtleDecrypt, List.append_assoc,
    decCKey_encCKey]
  simp only [ite_eq_right_iff, and_imp]
  exact fun h => absurd h (Ne.symm hk)

theorem ivOf_length (n : Nat) : (ivOf n).length = 12 := by
  simp [ivOf]

/-- Decrypting the framed blob with the key that produced it recovers the
payload. -/
theorem decryptJsonAesGcm_roundtrip (obj : Json) (key : Option CKey) (r : Rng) :
    decryptJsonAesGcm (encryptJsonAesGcm obj key r).1.encrypted
      (encryptJsonAesGcm obj key r).1.key = .ok obj := by
  have main : ∀ (k : CKey) (m : Nat),
      decryptJsonAesGcm (1 :: (ivOf m ++ subtleEncrypt k (ivOf m) (encodeJson obj))) k
        = .ok obj := by
    intro k m
    have hiv := ivOf_length m
    have htake : (ivOf m ++ subtleEncrypt k (ivOf m) (encodeJson obj)).take 12
        = ivOf m := by
      have h := List.take_left (ivOf m) (subtleEncrypt k (ivOf m) (encodeJson obj))
      rwa [hiv] at h
    have hdrop : (ivOf m ++ subtleEncrypt k (ivOf m) (encodeJson obj)).drop 12
        = subtleEncrypt k (ivOf m) (encodeJson obj) := by
      have h := List.drop_left (ivOf m) (subtleEncrypt k (ivOf m) (encodeJson obj))
      rwa [hiv] at h
    simp [decryptJsonAesGcm, htake, hdrop,
      subtleDecrypt_subtleEncrypt k (ivOf m) (encodeJson obj) hiv,
      parseJsonBytes_encodeJson]
  cases key with
  | some k => exact main k (r.next).1
  | none => exact main (CKey.gen (r.next).1) ((r.next).2.next).1

/-- A framed blob decrypted with ANY other key fails with the
authentication error. -/
theorem decryptJsonAesGcm_wrong_key (obj : Json) (key : Option CKey)
    (r : Rng) (k' : CKey) (hk : k' ≠ (encryptJsonAesGcm obj key r).1.key) :
    decryptJsonAesGcm (encryptJsonAesGcm obj key r).1.encrypted k'
      = .error .authFailure := by
  have main : ∀ (k : CKey) (m : Nat), k' ≠ k →
      decryptJsonAesGcm (1 :: (ivOf m ++ subtleEncrypt k (ivOf m) (encodeJson obj))) k'
        = .error .authFailure := by
    intro k m hne
    have hiv := ivOf_length m
    have htake : (ivOf m ++ subtleEncrypt k (ivOf m) (encodeJson obj)).take 12
        = ivOf m := by
      have h := List.take_left (ivOf m) (subtleEncrypt k (ivOf m) (encodeJson obj))
      rwa [hiv] at h
    have hdrop : (ivOf m ++ subtleEncrypt k (ivOf m) (encodeJson obj)).drop 12
        = subtleEncrypt k (ivOf m) (encodeJson obj) := by
      have h := List.drop_left (ivOf m) (subtleEncrypt k (ivOf m) (encodeJson obj))
      rwa [hiv] at h
    simp [decryptJsonAesGcm, htake, hdrop,
      subtleDecrypt_wrong_key k k' (ivOf m) (ivOf m) (encodeJson obj) hne]
  cases key with
  | some k => exact main k (r.next).1 hk
  | none => exact main (CKey.gen (r.next).1) ((r.next).2.next).1 hk

/-- `decryptDocument` inverts `encryptDocument` under the same key. -/
theorem decryptDocument_roundtrip (data : Json) (key : CKey) (r : Rng) :
    decryptDocument (encryptDocument data key r).1.1
      (encryptDocument data key r).1.2 key = .ok data := by
  simp [decryptDocument, encryptDocument,
    subtleDecrypt_subtleEncrypt key (ivOf (r.next).1) (encodeJson data)
      (ivOf_length _),
    parseJsonBytes_encodeJson]

/-! ## Claims -/

/-- C1: for every JSON-serializable payload `P` and every AES-GCM content
key `K`, decrypting the blob produced by encryption under `K` with the same
`K` returns `P` — both for the framed pair
`decryptJsonAesGcm (encryptJsonAesGcm P K).encrypted K = P` and for the
unframed pair
`decryptDocument (encryptDocument P K).encrypted (encryptDocument P K).iv K = P`. -/
theorem claim_C1_roundtrip (P : Json) (K : CKey) (r : Rng) :
    decryptJsonAesGcm (encryptJsonAesGcm P (some K) r).1.encrypted K = .ok P ∧
    decryptDocument (encryptDocument P K r).1.1 (encryptDocument P K r).1.2 K
      = .ok P :=
  ⟨decryptJsonAesGcm_roundtrip P (some K) r, decryptDocument_roundtrip P K r⟩

/-- C4: `decryptJsonAesGcm` fails with the unsupported-format-version error
exactly when the first byte of the blob is not `1` — whatever the key and
the remaining bytes are, so no decryption is attempted there — and a blob
whose version byte is `1` never produces that error. -/
theorem claim_C4_version_gate (blob : List Nat) (key : CKey) :
    decryptJsonAesGcm blob key = .error .unsupportedVersion ↔
      blob.head? ≠ some 1 := by
  cases blob with
  | nil => simp [decryptJsonAesGcm]
  | cons b rest =>
      by_cases hb : b = 1
      · subst hb
        simp only [List.head?, ne_eq, Option.some.injEq, not_true_eq_false,
          iff_false]
        intro h
        rcases hsd : subtleDecrypt key (List.take 12 rest) (List.drop 12 rest)
          with _ | plain
        · simp [decryptJsonAesGcm, hsd] at h
        · rcases hp : parseJsonBytes plain with _ | j
          · simp [decryptJsonAesGcm, hsd, hp] at h
          · simp [decryptJsonAesGcm, hsd, hp] at h
      · have hred : decryptJsonAesGcm (b :: rest) key
            = .error .unsupportedVersion := by
          rw [decryptJsonAesGcm.eq_def]
          split
          · rename_i rest' heq
            injection heq with h1 _
            exact absurd h1 hb
          · rfl
        simp [hred, List.head?, hb]

/-- C9: restore is atomic with respect to the active identity: whenever
`Keys.restore` reports failure it returns no keypair and the cached identity
is exactly what it was before the call — only a fully successful restore
replaces it. -/
theorem claim_C9_restore_atomic (st : KeysState) (options : KeyRecoveryOptions)
    (h : (Keys.restore st options).1.success = false) :
    (Keys.restore st options).1.keyPair = none ∧
      (Keys.restore st options).2 = st := by
  revert h
  unfold Keys.restore
  dsimp only
  split
  · split
    · exact fun _ => ⟨rfl, rfl⟩
    · split
      · exact fun _ => ⟨rfl, rfl⟩
      · split
        · exact fun _ => ⟨rfl, rfl⟩
        · split
          · exact fun _ => ⟨rfl, rfl⟩
          · intro h; simp at h
  · split
    · exact fun _ => ⟨rfl, rfl⟩
    · split
      · exact fun _ => ⟨rfl, rfl⟩
      · intro h; simp at h
  · exact fun _ => ⟨rfl, rfl⟩

/-- C9 witness: a concrete failing restore ('webauthn', unimplemented)
returns no keypair and leaves the cached pair untouched. -/
theorem claim_C9_restore_atomic_witness :
    (Keys.restore ⟨some ⟨"pu", "pr"⟩⟩ ⟨"webauthn", none, none⟩).1.keyPair = none ∧
      (Keys.restore ⟨some ⟨"pu", "pr"⟩⟩ ⟨"webauthn", none, none⟩).2
        = ⟨some ⟨"pu", "pr"⟩⟩ :=
  claim_C9_restore_atomic ⟨some ⟨"pu", "pr"⟩⟩ ⟨"webauthn", none, none⟩ rfl

/-- C5 counterexample: the claim quantifies over every passphrase, but for
the empty passphrase (falsy in JS) `backup` fails with `backupData: null`
and the composed `restore` — called, as the claim composes it, with that
`backupData` — returns `success: false` with no keypair instead of the
original pair. -/
theorem claim_C5_counterexample :
    Keys.backup ⟨some ⟨"pubA", "privA"⟩⟩ ⟨"phrase", some "", none⟩ ⟨0⟩ 0
      = .ok (⟨none, false⟩, ⟨0⟩) ∧
    Keys.restore ⟨some ⟨"pubA", "privA"⟩⟩ ⟨"phrase", some "", none⟩
      = (⟨false, none⟩, ⟨some ⟨"pubA", "privA"⟩⟩) :=
  ⟨rfl, rfl⟩

/-- C5 (amended): for every identity keypair, metadata and NON-EMPTY
passphrase, a phrase-method backup succeeds, and restoring from its
`backupData` with the same passphrase succeeds and re-installs exactly the
original keypair (same public and private halves). -/
theorem claim_C5_escrow_roundtrip (kp : KeyPair) (pass : String)
    (meta : Option Json) (r : Rng) (now : Nat) (st' : KeysState)
    (hpass : pass ≠ "") :
    ∃ bd r',
      Keys.backup ⟨some kp⟩ ⟨"phrase", some pass, meta⟩ r now
        = .ok (⟨some bd, true⟩, r') ∧
      Keys.restore st' ⟨"phrase", some pass, some bd⟩
        = (⟨true, some kp⟩, ⟨some kp⟩) := by
  obtain ⟨pub, priv⟩ := kp
  rcases meta with - | m
  · rcases henc : encryptJsonAesGcm (Json.jobj [("privateKey", .jstr priv)])
        (some (deriveKeyFromPassphrase pass)) r with ⟨out, r'⟩
    have hkey : out.key = deriveKeyFromPassphrase pass := by
      have h2 := congrArg (fun p => p.1.key) henc
      simpa [encryptJsonAesGcm] using h2.symm
    have hdec : decryptJsonAesGcm out.encrypted (deriveKeyFromPassphrase pass)
        = .ok (Json.jobj [("privateKey", .jstr priv)]) := by
      have h := decryptJsonAesGcm_roundtrip (Json.jobj [("privateKey", .jstr priv)])
        (some (deriveKeyFromPassphrase pass)) r
      rw [henc] at h
      simpa [hkey] using h
    refine ⟨⟨"phrase", some out.encrypted, none, some pub, none, now⟩, r', ?_, ?_⟩
    · simp [Keys.backup, strFalsy, hpass, henc]
    · simp [Keys.restore, strFalsy, hpass, hdec, jsonGet, jsonLookup, jsStrOf]
  · rcases henc : encryptJsonAesGcm
        (Json.jobj [("privateKey", .jstr priv), ("metadata", m)])
        (some (deriveKeyFromPassphrase pass)) r with ⟨out, r'⟩
    have hkey : out.key = deriveKeyFromPassphrase pass := by
      have h2 := congrArg (fun p => p.1.key) henc
      simpa [encryptJsonAesGcm] using h2.symm
    have hdec : decryptJsonAesGcm out.encrypted (deriveKeyFromPassphrase pass)
        = .ok (Json.jobj [("privateKey", .jstr priv), ("metadata", m)]) := by
      have h := decryptJsonAesGcm_roundtrip
        (Json.jobj [("privateKey", .jstr priv), ("metadata", m)])
        (some (deriveKeyFromPassphrase pass)) r
      rw [henc] at h
      simpa [hkey] using h
    refine ⟨⟨"phrase", some out.encrypted, none, some pub, none, now⟩, r', ?_, ?_⟩
    · simp [Keys.backup, strFalsy, hpass, henc]
    · simp [Keys.restore, strFalsy, hpass, hdec, jsonGet, jsonLookup, jsStrOf]

/-- C5 witness: the amended round-trip at a concrete keypair and the
concrete passphrase `"pw"`. -/
theorem claim_C5_escrow_roundtrip_witness :
    ∃ bd r',
      Keys.backup ⟨some ⟨"pubW", "privW"⟩⟩ ⟨"phrase", some "pw", none⟩ ⟨0⟩ 4
        = .ok (⟨some bd, true⟩, r') ∧
      Keys.restore ⟨none⟩ ⟨"phrase", some "pw", some bd⟩
        = (⟨true, some ⟨"pubW", "privW"⟩⟩, ⟨some ⟨"pubW", "privW"⟩⟩) :=
  claim_C5_escrow_roundtrip ⟨"pubW", "privW"⟩ "pw" none ⟨0⟩ 4 ⟨none⟩ (by decide)

/-- C8 counterexample: `backup` with method `'webauthn'` does NOT fail with
an unsupported-method error: it succeeds (`success: true`) and returns a
backup record that contains only the public key — no private key, neither
clear nor encrypted. -/
theorem claim_C8_counterexample :
    Keys.backup ⟨some ⟨"pub0", "priv0"⟩⟩ ⟨"webauthn", none, none⟩ ⟨0⟩ 3
      = .ok (⟨some ⟨"webauthn", none, none, some "pub0", none, 3⟩, true⟩, ⟨0⟩) :=
  rfl

/-- C8 (amended): with a cached keypair, `backup('webauthn')` succeeds and
returns a record lacking any private-key material (it only warns), while a
method outside `{'phrase','file','webauthn'}` is the one that fails, with
`success: false` and `backupData: null`. -/
theorem claim_C8_backup_methods (st : KeysState) (kp : KeyPair)
    (opts : KeyBackupOptions) (r : Rng) (now : Nat)
    (hc : st.cached = some kp) :
    (opts.method = "webauthn" →
      Keys.backup st opts r now
        = .ok (⟨some ⟨"webauthn", none, none, some kp.publicKeyArmored,
                 opts.metadata, now⟩, true⟩, r)) ∧
    (opts.method ≠ "phrase" → opts.method ≠ "file" → opts.method ≠ "webauthn" →
      Keys.backup st opts r now = .ok (⟨none, false⟩, r)) := by
  constructor
  · intro hm
    simp [Keys.backup, hc, hm]
  · intro h1 h2 h3
    simp only [Keys.backup, hc]

/-- C8 witness: the amended behaviour at concrete inputs — a webauthn backup
that succeeds without the private key, and an unknown method that fails. -/
theorem claim_C8_backup_methods_witness :
    Keys.backup ⟨some ⟨"pw8", "qv8"⟩⟩ ⟨"webauthn", none, some .jnull⟩ ⟨2⟩ 7
      = .ok (⟨some ⟨"webauthn", none, none, some "pw8", some .jnull, 7⟩, true⟩, ⟨2⟩) ∧
    Keys.backup ⟨some ⟨"pw8", "qv8"⟩⟩ ⟨"sms", none, none⟩ ⟨2⟩ 7
      = .ok (⟨none, false⟩, ⟨2⟩) :=
  ⟨(claim_C8_backup_methods ⟨some ⟨"pw8", "qv8"⟩⟩ ⟨"pw8", "qv8"⟩
      ⟨"webauthn", none, some .jnull⟩ ⟨2⟩ 7 rfl).1 rfl,
   (claim_C8_backup_methods ⟨some ⟨"pw8", "qv8"⟩⟩ ⟨"pw8", "qv8"⟩
      ⟨"sms", none, none⟩ ⟨2⟩ 7 rfl).2 (by decide) (by decide) (by decide)⟩

/-- A generated public armor always parses. -/
theorem isValidArmoredPub_pubArmor (p : String) :
    isValidArmoredPub (pubArmor p) = true := by
  simp only [isValidArmoredPub, pubArmor, String.data_append]
  rw [List.isPrefixOf_iff_prefix]
  exact List.prefix_append _ _

/-- C3 counterexample: with one valid and one invalid recipient key, the
fan-out does not return per-recipient results — the whole call fails with a
single error and carries no successfully wrapped keys at all. -/
theorem claim_C3_counterexample :
    wrapKeyForMultipleRecipients (CKey.gen 0)
      [⟨"alice", pubArmor "aP"⟩, ⟨"bob", "not-an-armored-key"⟩]
      = .error .invalidRecipientKey :=
  rfl

/-- C3 (amended): `wrapKeyForMultipleRecipients` is all-or-nothing
(`Promise.all`): when every recipient key is valid it returns one wrapped
key per recipient, in order; when any recipient key is invalid the whole
call fails with `InvalidRecipientKey` and no partial per-recipient result is
returned. -/
theorem claim_C3_fanout_all_or_nothing (aesKey : CKey)
    (recipients : List Recipient) :
    ((∀ rcp ∈ recipients, isValidArmoredPub rcp.publicKeyArmored = true) →
      wrapKeyForMultipleRecipients aesKey recipients =
        .ok (recipients.map
          (fun rcp => ⟨rcp.userId, ⟨aesKey, rcp.publicKeyArmored⟩⟩))) ∧
    ((∃ rcp ∈ recipients, ¬ isValidArmoredPub rcp.publicKeyArmored = true) →
      wrapKeyForMultipleRecipients aesKey recipients
        = .error .invalidRecipientKey) := by
  constructor
  · intro hall
    induction recipients with
    | nil => rfl
    | cons rcp rest ih =>
        have hr := hall rcp (List.mem_cons_self _ _)
        have hrest := ih (fun x hx => hall x (List.mem_cons_of_mem _ hx))
        simp [wrapKeyForMultipleRecipients, wrapKeyWithPGP, hr, hrest]
  · intro hex
    induction recipients with
    | nil => simp at hex
    | cons rcp rest ih =>
        by_cases hr : isValidArmoredPub rcp.publicKeyArmored = true
        · have hrest : ∃ x ∈ rest, ¬ isValidArmoredPub x.publicKeyArmored = true := by
            rcases hex with ⟨x, hx, hinv⟩
            rcases List.mem_cons.mp hx with hh | hh
            · exact absurd hr (hh ▸ hinv)
            · exact ⟨x, hh, hinv⟩
          simp [wrapKeyForMultipleRecipients, wrapKeyWithPGP, hr, ih hrest]
        · simp [wrapKeyForMultipleRecipients, wrapKeyWithPGP, hr]

/-- C3 witness: the amended behaviour at concrete inputs — an all-valid list
wraps per recipient, a list with an invalid key fails as a whole. -/
theorem claim_C3_fanout_witness :
    wrapKeyForMultipleRecipients (CKey.gen 4)
        [⟨"ann", pubArmor "annP"⟩, ⟨"ben", pubArmor "benP"⟩]
      = .ok [⟨"ann", ⟨CKey.gen 4, pubArmor "annP"⟩⟩,
             ⟨"ben", ⟨CKey.gen 4, pubArmor "benP"⟩⟩] ∧
    wrapKeyForMultipleRecipients (CKey.gen 4) [⟨"cyd", "zz"⟩]
      = .error .invalidRecipientKey :=
  ⟨(claim_C3_fanout_all_or_nothing (CKey.gen 4)
      [⟨"ann", pubArmor "annP"⟩, ⟨"ben", pubArmor "benP"⟩]).1
      (by simp [isValidArmoredPub_pubArmor]),
   (claim_C3_fanout_all_or_nothing (CKey.gen 4) [⟨"cyd", "zz"⟩]).2
      ⟨⟨"cyd", "zz"⟩, by simp, by decide⟩⟩

/-- C2, evaluated at the failing input: a document `{msg:"hi"}` is encrypted
under key `gen 0` and granted to bob and charlie; charlie unwraps (caches)
`gen 0`; then `ShareCore.revoke` for charlie runs both its steps — the
broker deletes charlie's wrap and `/rotate` stamps `rotatedAt` — but NO new
content key is generated, nothing is re-encrypted and nothing re-wrapped, so
charlie's cached key still decrypts the unchanged stored payload, contrary
to the claim's "cannot decrypt". -/
theorem claim_C2_revoke_leaves_old_key_working :
    ShareCore.grant [] "docs" "d1"
        [⟨"bob", pubArmor "bobP"⟩, ⟨"charlie", pubArmor "chP"⟩]
        (some (CKey.gen 0)) ⟨1⟩ 5
      = .ok (⟨CKey.gen 0,
              [⟨"bob", ⟨CKey.gen 0, pubArmor "bobP"⟩⟩,
               ⟨"charlie", ⟨CKey.gen 0, pubArmor "chP"⟩⟩]⟩,
          [("k_docs_d1", ⟨some "aes-gcm-256", some 5,
            [("bob", "WRAPPED_KEY_PLACEHOLDER"),
             ("charlie", "WRAPPED_KEY_PLACEHOLDER")], none⟩)], ⟨1⟩) ∧
    unwrapKeyWithPGP ⟨CKey.gen 0, pubArmor "chP"⟩ "chP" = .ok (CKey.gen 0) ∧
    ShareCore.revoke
        [("k_docs_d1", ⟨some "aes-gcm-256", some 5,
          [("bob", "WRAPPED_KEY_PLACEHOLDER"),
           ("charlie", "WRAPPED_KEY_PLACEHOLDER")], none⟩)]
        "docs" "d1" "charlie" 9
      = [("k_docs_d1", ⟨some "aes-gcm-256", some 9,
          [("bob", "WRAPPED_KEY_PLACEHOLDER")], some 9⟩)] ∧
    decryptDocument
        (encryptDocument (Json.jobj [("msg", .jstr "hi")]) (CKey.gen 0) ⟨1⟩).1.1
        (encryptDocument (Json.jobj [("msg", .jstr "hi")]) (CKey.gen 0) ⟨1⟩).1.2
        (CKey.gen 0)
      = .ok (Json.jobj [("msg", .jstr "hi")]) :=
  ⟨rfl, rfl, rfl, rfl⟩

/-- C7 counterexample: two grants for the same document without an explicit
`documentKey` wrap DIFFERENT fresh content keys (`gen 0`, then `gen 1`) —
`grant` never looks up the document's current ContentKey — so the recipient
ends up holding wraps of different keys, contrary to the claim. -/
theorem claim_C7_counterexample :
    ShareCore.grant [] "docs" "d1" [⟨"bob", pubArmor "bP"⟩] none ⟨0⟩ 5
      = .ok (⟨CKey.gen 0, [⟨"bob", ⟨CKey.gen 0, pubArmor "bP"⟩⟩]⟩,
          [("k_docs_d1", ⟨some "aes-gcm-256", some 5,
            [("bob", "WRAPPED_KEY_PLACEHOLDER")], none⟩)], ⟨1⟩) ∧
    ShareCore.grant
        [("k_docs_d1", ⟨some "aes-gcm-256", some 5,
          [("bob", "WRAPPED_KEY_PLACEHOLDER")], none⟩)]
        "docs" "d1" [⟨"bob", pubArmor "bP"⟩] none ⟨1⟩ 6
      = .ok (⟨CKey.gen 1, [⟨"bob", ⟨CKey.gen 1, pubArmor "bP"⟩⟩]⟩,
          [("k_docs_d1", ⟨some "aes-gcm-256", some 6,
            [("bob", "WRAPPED_KEY_PLACEHOLDER")], none⟩)], ⟨2⟩) ∧
    CKey.gen 0 ≠ CKey.gen 1 :=
  ⟨rfl, rfl, by decide⟩

/-- One broker grant rewrites exactly its recipient's entry of the wrap
map. -/
theorem brokerWrapped_brokerGrant (s : BrokerState) (kref u : String)
    (w : WrappedKey) :
    brokerWrapped (brokerGrant s kref u w) kref
      = alistSet (brokerWrapped s kref) u "WRAPPED_KEY_PLACEHOLDER" := by
  simp [brokerGrant, brokerWrapped, alistGet_alistSet_self]

/-- The grant fan-out acts on the wrap map as a fold of per-recipient
upserts. -/
theorem brokerWrapped_foldl_grant (ws : List RecipientWrap) (s : BrokerState)
    (kref : String) :
    brokerWrapped
        (ws.foldl (fun s wk => brokerGrant s kref wk.userId wk.wrappedKey) s)
        kref
      = ws.foldl (fun m wk => alistSet m wk.userId "WRAPPED_KEY_PLACEHOLDER")
          (brokerWrapped s kref) := by
  induction ws generalizing s with
  | nil => rfl
  | cons wk rest ih =>
      simp only [List.foldl_cons, ih, brokerWrapped_brokerGrant]

/-- `doc-key` registration touches only `alg` and `createdAt`: wrap maps are
unchanged. -/
theorem brokerWrapped_brokerDocKey (s : BrokerState) (c i : String)
    (now : Nat) (k : String) :
    brokerWrapped ((brokerDocKey s c i now).2) k = brokerWrapped s k := by
  by_cases hk : ("k_" ++ c ++ "_" ++ i) = k
  · subst hk
    simp [brokerDocKey, brokerWrapped, alistGet_alistSet_self]
  · simp [brokerDocKey, brokerWrapped, alistGet_alistSet_ne _ _ _ _ hk]

/-- Once an entry holds a value, later upserts keep it at some value;
specifically upserting the placeholder anywhere preserves an entry already
holding the placeholder. -/
theorem alistGet_foldl_set_preserve (ws : List RecipientWrap)
    (m : List (String × String)) (u : String)
    (h : alistGet u m = some "WRAPPED_KEY_PLACEHOLDER") :
    alistGet u
        (ws.foldl (fun m wk => alistSet m wk.userId "WRAPPED_KEY_PLACEHOLDER") m)
      = some "WRAPPED_KEY_PLACEHOLDER" := by
  induction ws generalizing m with
  | nil => exact h
  | cons wk rest ih =>
      simp only [List.foldl_cons]
      apply ih
      by_cases hu : wk.userId = u
      · subst hu; exact alistGet_alistSet_self _ _ _
      · rw [alistGet_alistSet_ne _ _ _ _ hu]; exact h

/-- After the fan-out fold, every granted recipient's entry is the
placeholder. -/
theorem alistGet_foldl_set_mem (ws : List RecipientWrap)
    (m : List (String × String)) (wk : RecipientWrap) (hmem : wk ∈ ws) :
    alistGet wk.userId
        (ws.foldl (fun m wk => alistSet m wk.userId "WRAPPED_KEY_PLACEHOLDER") m)
      = some "WRAPPED_KEY_PLACEHOLDER" := by
  induction ws generalizing m with
  | nil => cases hmem
  | cons wk' rest ih =>
      simp only [List.foldl_cons]
      rcases List.mem_cons.mp hmem with hh | hh
      · subst hh
        exact alistGet_foldl_set_preserve rest _ _
          (alistGet_alistSet_self _ _ _)
      · exact ih _ hh

/-- Upserting values an assoc map already holds changes nothing. -/
theorem foldl_set_id (ws : List RecipientWrap) (m : List (String × String))
    (h : ∀ wk ∈ ws, alistGet wk.userId m = some "WRAPPED_KEY_PLACEHOLDER") :
    ws.foldl (fun m wk => alistSet m wk.userId "WRAPPED_KEY_PLACEHOLDER") m
      = m := by
  induction ws with
  | nil => rfl
  | cons wk rest ih =>
      simp only [List.foldl_cons]
      rw [alistSet_eq_of_get _ _ _ (h wk (List.mem_cons_self _ _))]
      exact ih (fun x hx => h x (List.mem_cons_of_mem _ hx))

/-- The fan-out fold keeps the kref's document present. -/
theorem alistGet_foldl_grant_isSome (ws : List RecipientWrap)
    (s : BrokerState) (kref : String)
    (h : (alistGet kref s).isSome = true) :
    (alistGet kref
        (ws.foldl (fun s wk => brokerGrant s kref wk.userId wk.wrappedKey) s)).isSome
      = true := by
  induction ws generalizing s with
  | nil => exact h
  | cons wk rest ih =>
      simp only [List.foldl_cons]
      apply ih
      simp [brokerGrant, alistGet_alistSet_self]

/-- C7 (amended): at the broker, re-granting the same recipients with the
SAME document key is idempotent — the second grant returns the same wrapped
keys and leaves the kref's wrap map exactly as the first grant left it
(each recipient's entry is replaced, never duplicated) — and the first
grant creates the KeyReference.  The key wrapped is the caller-supplied one
(or a fresh one when omitted, per the counterexample); the document's
current ContentKey is never looked up. -/
theorem claim_C7_grant_idempotent (st : BrokerState) (collection id : String)
    (recipients : List Recipient) (dk : CKey) (ws : List RecipientWrap)
    (r r' : Rng) (now now' : Nat)
    (hwrap : wrapKeyForMultipleRecipients dk recipients = .ok ws) :
    ∃ st₁ st₂,
      ShareCore.grant st collection id recipients (some dk) r now
        = .ok (⟨dk, ws⟩, st₁, r) ∧
      ShareCore.grant st₁ collection id recipients (some dk) r' now'
        = .ok (⟨dk, ws⟩, st₂, r') ∧
      brokerWrapped st₂ ("k_" ++ collection ++ "_" ++ id)
        = brokerWrapped st₁ ("k_" ++ collection ++ "_" ++ id) ∧
      (alistGet ("k_" ++ collection ++ "_" ++ id) st₁).isSome = true := by
  refine ⟨(ws.foldl
      (fun s wk => brokerGrant s ("k_" ++ collection ++ "_" ++ id)
        wk.userId wk.wrappedKey)
      (brokerDocKey st collection id now).2),
    (ws.foldl
      (fun s wk => brokerGrant s ("k_" ++ collection ++ "_" ++ id)
        wk.userId wk.wrappedKey)
      (brokerDocKey (ws.foldl
        (fun s wk => brokerGrant s ("k_" ++ collection ++ "_" ++ id)
          wk.userId wk.wrappedKey)
        (brokerDocKey st collection id now).2) collection id now').2),
    ?_, ?_, ?_, ?_⟩
  · simp [ShareCore.grant, hwrap, brokerDocKey]
  · simp [ShareCore.grant, hwrap, brokerDocKey]
  · rw [brokerWrapped_foldl_grant, brokerWrapped_brokerDocKey]
    apply foldl_set_id
    intro wk hmem
    rw [brokerWrapped_foldl_grant]
    exact alistGet_foldl_set_mem ws _ wk hmem
  · apply alistGet_foldl_grant_isSome
    simp [brokerDocKey, alistGet_alistSet_self]

/-- C7 witness: the amended idempotence at concrete inputs. -/
theorem claim_C7_grant_idempotent_witness :
    ∃ st₁ st₂,
      ShareCore.grant [] "docs" "d7" [⟨"bob", pubArmor "bW"⟩]
          (some (CKey.gen 7)) ⟨0⟩ 1
        = .ok (⟨CKey.gen 7, [⟨"bob", ⟨CKey.gen 7, pubArmor "bW"⟩⟩]⟩, st₁, ⟨0⟩) ∧
      ShareCore.grant st₁ "docs" "d7" [⟨"bob", pubArmor "bW"⟩]
          (some (CKey.gen 7)) ⟨1⟩ 2
        = .ok (⟨CKey.gen 7, [⟨"bob", ⟨CKey.gen 7, pubArmor "bW"⟩⟩]⟩, st₂, ⟨1⟩) ∧
      brokerWrapped st₂ ("k_" ++ "docs" ++ "_" ++ "d7")
        = brokerWrapped st₁ ("k_" ++ "docs" ++ "_" ++ "d7") ∧
      (alistGet ("k_" ++ "docs" ++ "_" ++ "d7") st₁).isSome = true :=
  claim_C7_grant_idempotent [] "docs" "d7" [⟨"bob", pubArmor "bW"⟩]
    (CKey.gen 7) [⟨"bob", ⟨CKey.gen 7, pubArmor "bW"⟩⟩] ⟨0⟩ ⟨1⟩ 1 2 rfl

/-- C6 (amended): under policy `{encryption:'field', fields:F}`, the stored
form is a JSON object whose clear part carries NO entry for any field named in `F`
(those values live only inside the embedded `EncryptedBlob` under `__blob`,
which decrypts — under the session key `create` registered — to exactly the
document's `F`-named fields), while every document field not named in `F`
(and not shadowed by the `__mode`/`__iv`/`__blob` bookkeeping names) is
stored in cleartext with its original value. -/
theorem claim_C6_field_isolation (fs : List (String × Json)) (F : List String)
    (r : Rng) :
    ∃ part encrypted key,
      (DataCore.create (.jobj fs) ⟨.modeField, some F⟩ r).1.stored
        = encodeJson (.jobj part) ∧
      (DataCore.create (.jobj fs) ⟨.modeField, some F⟩ r).1.key = some key ∧
      parseJsonBytes (DataCore.create (.jobj fs) ⟨.modeField, some F⟩ r).1.stored
        = some (.jobj part) ∧
      (∀ f ∈ F, f ≠ "__mode" → f ≠ "__iv" → f ≠ "__blob" →
        jsonLookup f part = none) ∧
      (∀ k, k ∉ F → k ≠ "__mode" → k ≠ "__iv" → k ≠ "__blob" →
        jsonLookup k part = jsonLookup k fs) ∧
      jsonLookup "__blob" part
        = some (.jarr (encrypted.map (fun b => .jnum (Int.ofNat b)))) ∧
      decryptJsonAesGcm encrypted key = .ok (.jobj (assignFields fs F)) ∧
      (∀ f ∈ F, jsonLookup f (assignFields fs F) = jsonLookup f fs) ∧
      (∀ f, f ∉ F → jsonLookup f (assignFields fs F) = none) := by
  rcases henc : encryptJsonAesGcm (Json.jobj (assignFields fs F)) none r
    with ⟨out, r'⟩
  have hdec : decryptJsonAesGcm out.encrypted out.key
      = .ok (.jobj (assignFields fs F)) := by
    have h := decryptJsonAesGcm_roundtrip (Json.jobj (assignFields fs F)) none r
    rw [henc] at h
    exact h
  refine ⟨setField (setField (setField (removeFields fs F) "__mode"
      (.jstr "field")) "__iv" .jnull) "__blob"
      (.jarr (out.encrypted.map (fun b => .jnum (Int.ofNat b)))),
    out.encrypted, out.key, ?_, ?_, ?_, ?_, ?_, ?_, hdec, ?_, ?_⟩
  · simp [DataCore.create, jsObjFields, henc]
  · simp [DataCore.create, jsObjFields, henc]
  · have hst : (DataCore.create (.jobj fs) ⟨.modeField, some F⟩ r).1.stored
        = encodeJson (.jobj (setField (setField (setField (removeFields fs F)
            "__mode" (.jstr "field")) "__iv" .jnull) "__blob"
            (.jarr (out.encrypted.map (fun b => .jnum (Int.ofNat b)))))) := by
      simp [DataCore.create, jsObjFields, henc]
    rw [hst, parseJsonBytes_encodeJson]
  · intro f hmem h1 h2 h3
    rw [jsonLookup_setField_ne _ _ _ _ (Ne.symm h3),
      jsonLookup_setField_ne _ _ _ _ (Ne.symm h2),
      jsonLookup_setField_ne _ _ _ _ (Ne.symm h1)]
    exact jsonLookup_removeFields_mem fs F f hmem
  · intro k hmem h1 h2 h3
    rw [jsonLookup_setField_ne _ _ _ _ (Ne.symm h3),
      jsonLookup_setField_ne _ _ _ _ (Ne.symm h2),
      jsonLookup_setField_ne _ _ _ _ (Ne.symm h1)]
    exact jsonLookup_removeFields_not_mem fs F k hmem
  · exact jsonLookup_setField_self _ _ _
  · intro f hmem
    rw [jsonLookup_assignFields fs F f, if_pos hmem]
  · intro f hmem
    rw [jsonLookup_assignFields fs F f, if_neg hmem]

/-- C6 witness: for the document `{ssn:"123", name:"bo"}` under
`fields:{"ssn"}`, the parsed stored form has no `ssn` entry while `name`
is stored clear, and the embedded blob decrypts to exactly `{ssn:"123"}`. -/
theorem claim_C6_field_isolation_witness :
    ∃ part encrypted key,
      parseJsonBytes
          (DataCore.create (.jobj [("ssn", .jstr "123"), ("name", .jstr "bo")])
            ⟨.modeField, some ["ssn"]⟩ ⟨0⟩).1.stored
        = some (.jobj part) ∧
      jsonLookup "ssn" part = none ∧
      jsonLookup "name" part = some (.jstr "bo") ∧
      decryptJsonAesGcm encrypted key
        = .ok (.jobj (assignFields [("ssn", .jstr "123"), ("name", .jstr "bo")]
            ["ssn"])) ∧
      jsonLookup "ssn" (assignFields [("ssn", .jstr "123"), ("name", .jstr "bo")]
          ["ssn"]) = some (.jstr "123") := by
  obtain ⟨part, encrypted, key, -, -, hparse, hnossn, hclear, -, hdec, hin, -⟩ :=
    claim_C6_field_isolation [("ssn", .jstr "123"), ("name", .jstr "bo")]
      ["ssn"] ⟨0⟩
  refine ⟨part, encrypted, key, hparse,
    hnossn "ssn" (by decide) (by decide) (by decide) (by decide), ?_, hdec, ?_⟩
  · rw [hclear "name" (by decide) (by decide) (by decide) (by decide)]
    rfl
  · rw [hin "ssn" (by decide)]
    rfl

/-- One step of `DataCore.query`. -/
theorem query_cons (b : List Nat) (bs : List (List Nat)) :
    DataCore.query (b :: bs) =
      match queryDecode b with
      | none => DataCore.query bs
      | some v => v :: DataCore.query bs := by
  simp only [DataCore.query, List.filterMap_cons]
  cases queryDecode b <;> rfl

/-- C10: `DataCore.query` returns exactly the documents whose stored form is
tagged mode `'none'`, in order; documents stored under `'field'` or
`'document'` policy are silently omitted, so the query never yields
plaintext derived from an encrypted document and never fails on an
encrypted entry (it is total on every stored blob). -/
theorem claim_C10_query_none_only (inputs : List (Json × DataPolicy))
    (r : Rng) :
    DataCore.query (createStoredList inputs r) =
      inputs.filterMap (fun ip =>
        if ip.2.encryption = .modeNone then some (some ip.1) else none) := by
  induction inputs generalizing r with
  | nil => rfl
  | cons ip rest ih =>
      obtain ⟨d, pol⟩ := ip
      obtain ⟨mode, flds⟩ := pol
      cases mode with
      | modeNone =>
          have hstep : createStoredList ((d, ⟨.modeNone, flds⟩) :: rest) r
              = encodeJson (.jobj [("__mode", .jstr "none"), ("doc", d)])
                :: createStoredList rest r := rfl
          have hdecode :
              queryDecode (encodeJson (.jobj [("__mode", .jstr "none"), ("doc", d)]))
                = some (some d) := by
            simp [queryDecode, parseJsonBytes_encodeJson, jsonLookup]
          rw [hstep, query_cons, hdecode]
          simp [List.filterMap_cons, ih r]
      | modeField =>
          rcases henc : encryptJsonAesGcm
              (Json.jobj (assignFields (jsObjFields d) (flds.getD []))) none r
            with ⟨out, r'⟩
          have hstep : createStoredList ((d, ⟨.modeField, flds⟩) :: rest) r
              = encodeJson (.jobj (setField (setField (setField
                  (removeFields (jsObjFields d) (flds.getD []))
                  "__mode" (.jstr "field")) "__iv" .jnull) "__blob"
                  (.jarr (out.encrypted.map (fun b => .jnum (Int.ofNat b))))))
                :: createStoredList rest r' := by
            simp [createStoredList, DataCore.create, henc]
          have hmode : jsonLookup "__mode"
              (setField (setField (setField
                (removeFields (jsObjFields d) (flds.getD []))
                "__mode" (.jstr "field")) "__iv" .jnull) "__blob"
                (.jarr (out.encrypted.map (fun b => .jnum (Int.ofNat b)))))
              = some (.jstr "field") := by
            rw [jsonLookup_setField_ne _ _ _ _ (by decide),
              jsonLookup_setField_ne _ _ _ _ (by decide),
              jsonLookup_setField_self]
          have hdecode : queryDecode (encodeJson (.jobj (setField (setField
              (setField (removeFields (jsObjFields d) (flds.getD []))
              "__mode" (.jstr "field")) "__iv" .jnull) "__blob"
              (.jarr (out.encrypted.map (fun b => .jnum (Int.ofNat b))))))) = none := by
            simp only [queryDecode, parseJsonBytes_encodeJson, hmode]
            simp
          rw [hstep, query_cons, hdecode]
          simp [List.filterMap_cons, ih r']
      | modeDocument =>
          rcases henc : encryptJsonAesGcm d none r with ⟨out, r'⟩
          have henc2 : out.encrypted
              = 1 :: (ivOf ((r.next).2.next).1 ++
                  subtleEncrypt (CKey.gen (r.next).1)
                    (ivOf ((r.next).2.next).1) (encodeJson d)) := by
            have h := congrArg (fun p => p.1.encrypted) henc
            simp only [encryptJsonAesGcm] at h
            exact h.symm
          have hstep : createStoredList ((d, ⟨.modeDocument, flds⟩) :: rest) r
              = out.encrypted :: createStoredList rest r' := by
            simp [createStoredList, DataCore.create, henc]
          have hdecode : queryDecode out.encrypted = none := by
            rw [henc2]
            simp [queryDecode, parseJsonBytes_version_byte]
          rw [hstep, query_cons, hdecode]
          simp [List.filterMap_cons, ih r']

/-- C6 counterexample: the claim quantifies over every field of the
document, but `create` overwrites the bookkeeping names: a document with a
field `__blob` (not listed in `fields`) does NOT keep that field's cleartext
value in the stored form — `partial.__blob = Array.from(enc)` clobbers it
with the encrypted blob. -/
theorem claim_C6_counterexample :
    ∃ part,
      parseJsonBytes ((DataCore.create (.jobj [("__blob", .jnum 5)])
          ⟨.modeField, some []⟩ ⟨0⟩).1.stored) = some (.jobj part) ∧
      jsonLookup "__blob" part ≠ some (.jnum 5) := by
  refine ⟨setField (setField (setField
      (removeFields [("__blob", .jnum 5)] []) "__mode" (.jstr "field"))
      "__iv" .jnull) "__blob"
      (.jarr (((encryptJsonAesGcm (Json.jobj (assignFields
        [("__blob", .jnum 5)] [])) none ⟨0⟩).1.encrypted).map
        (fun b => .jnum (Int.ofNat b)))), ?_, ?_⟩
  · have h := parseJsonBytes_encodeJson
      (.jobj (setField (setField (setField
        (removeFields [("__blob", .jnum 5)] []) "__mode" (.jstr "field"))
        "__iv" .jnull) "__blob"
        (.jarr (((encryptJsonAesGcm (Json.jobj (assignFields
          [("__blob", .jnum 5)] [])) none ⟨0⟩).1.encrypted).map
          (fun b => .jnum (Int.ofNat b))))))
    exact h
  · intro h
    rw [jsonLookup_setField_self] at h
    exact Json.noConfusion (Option.some.inj h)
